import Mathlib

/-!
# Verification of the aws-tagsense resource-scanning / bulk-tagging core

Shallow embedding of `src/tagger_core` (resource_scanner.py, ec2_scanner.py,
lambda_scanner.py, s3_scanner.py, rds_scanner.py, ebs_scanner.py,
multi_region_scanner.py, bulk_operations.py).

Python dicts with string keys are embedded as association lists
(`List (String × String)`); remote AWS calls are embedded as explicit
environment functions supplied as parameters; exceptions become sum types.
Timestamps and wall-clock durations are not modelled (durations are fixed
to 0); kind-specific derived metadata maps are not modelled, as no claim
refers to them.
-/

namespace AwsTagSense

/-! ## Python string-keyed dicts as association lists -/

abbrev Tags := List (String × String)

/-- `d[k]` lookup on an association list: first binding wins
(Python dicts built by the scanners have unique keys). -/
def dictGet (d : Tags) (k : String) : Option String :=
  match d.find? (fun p => p.1 == k) with
  | some p => some p.2
  | none => none

/-- Python `{**a, **b}`: keys of `a` in their order (values overridden by
`b` where present), followed by the keys of `b` that are not in `a`. -/
def mergeDicts (a b : Tags) : Tags :=
  (a.map (fun p => (p.1, ((dictGet b p.1).getD p.2)))) ++
    b.filter (fun p => (dictGet a p.1).isNone)

/-! ## Shared resource model (`resource_scanner.py`) -/

/-- `ResourceType` enum. -/
inductive ResourceType where
  | EC2 | LAMBDA | RDS | S3 | EBS
deriving DecidableEq, Repr

/-- `AWSResource` dataclass (the opaque kind-specific `metadata` map is not
modelled; no claim refers to it). -/
structure AWSResource where
  resource_id : String
  resource_type : ResourceType
  region : String
  tags : Tags
  state : String
deriving DecidableEq, Repr

/-- `AWSResource.is_tagged`: `len(self.tags) > 0`. -/
def AWSResource.is_tagged (r : AWSResource) : Bool :=
  r.tags.length > 0

/-- `ScanResult` dataclass. -/
structure ScanResult where
  resource_type : ResourceType
  region : String
  total_resources : Nat
  tagged_resources : List AWSResource
  untagged_resources : List AWSResource
  resources : List AWSResource
deriving DecidableEq, Repr

/-- `ScanResult.tagging_compliance_rate`. -/
def ScanResult.tagging_compliance_rate (r : ScanResult) : ℚ :=
  if r.total_resources = 0 then 0
  else ((r.tagged_resources.length : ℚ) / (r.total_resources : ℚ)) * 100

/-- The `ScanResult` construction every scanner performs on its parsed
resource list: `tagged = [r for r in rs if r.is_tagged]`,
`untagged = [r for r in rs if not r.is_tagged]`, `total = len(rs)`. -/
def buildScanResult (rt : ResourceType) (region : String)
    (resources : List AWSResource) : ScanResult :=
  { resource_type := rt
    region := region
    total_resources := resources.length
    tagged_resources := resources.filter (fun r => r.is_tagged)
    untagged_resources := resources.filter (fun r => !r.is_tagged)
    resources := resources }

/-! ## EC2 scanner (`ec2_scanner.py`)

The remote `describe_instances` listing is modelled as the full list of
pages the API would serve; the code issues a single `describe_instances()`
call, which returns the first page, and never follows `NextToken`. -/

structure EC2Instance where
  instanceId : String
  state : String
  tags : Tags
deriving DecidableEq, Repr

structure EC2Reservation where
  instances : List EC2Instance
deriving DecidableEq, Repr

structure EC2Page where
  reservations : List EC2Reservation
  nextToken : Option String
deriving DecidableEq, Repr

/-- `EC2Scanner._parse_instance` (metadata dict not modelled). -/
def parseInstance (region : String) (i : EC2Instance) : AWSResource :=
  { resource_id := i.instanceId
    resource_type := .EC2
    region := region
    tags := i.tags
    state := i.state }

/-- All instances the remote listing contains, across all pages. -/
def ec2ListedInstances (pages : List EC2Page) : List EC2Instance :=
  (pages.map (fun p => (p.reservations.map (fun rv => rv.instances)).flatten)).flatten

/-- `EC2Scanner.scan` success path: one `describe_instances()` call
(the first page of the listing; an empty listing yields an empty
response), instances parsed from its reservations, then partitioned. -/
def ec2Scan (region : String) (pages : List EC2Page) : ScanResult :=
  let response := pages.headD { reservations := [], nextToken := none }
  let instances :=
    ((response.reservations.map (fun rv => rv.instances)).flatten).map
      (parseInstance region)
  buildScanResult .EC2 region instances

/-! ## Lambda scanner (`lambda_scanner.py`)

`list_functions` is paginated by `Marker`: the scan loop consumes page
after page until `NextMarker` is absent, so the listing is modelled as the
list of pages in the order the markers produce them.  Tags are fetched per
function with `list_tags(Resource=arn)` (a `ClientError` there is caught
and leaves the tags empty), modelled as a total function from ARN to tags. -/

structure LambdaFunction where
  functionName : String
  functionArn : String
  runtime : Option String
deriving DecidableEq, Repr

/-- `if runtime_filter and function_data.get('Runtime') not in runtime_filter:
continue` — an absent or empty (falsy) filter keeps everything. -/
def runtimeKeep (rf : Option (List String)) (f : LambdaFunction) : Bool :=
  match rf with
  | none => true
  | some [] => true
  | some (x :: xs) =>
    match f.runtime with
    | some r => (x :: xs).contains r
    | none => false

/-- `LambdaScanner._parse_function`. -/
def parseFunction (region : String) (tagsOf : String → Tags)
    (f : LambdaFunction) : AWSResource :=
  { resource_id := f.functionName
    resource_type := .LAMBDA
    region := region
    tags := tagsOf f.functionArn
    state := "active" }

/-- `LambdaScanner.scan` success path: every page is consumed. -/
def lambdaScan (region : String) (pages : List (List LambdaFunction))
    (tagsOf : String → Tags) (runtimeFilter : Option (List String)) :
    ScanResult :=
  let functions :=
    (pages.flatten.filter (runtimeKeep runtimeFilter)).map
      (parseFunction region tagsOf)
  buildScanResult .LAMBDA region functions

/-! ## RDS scanner (`rds_scanner.py`)

`describe_db_instances` is consumed through a boto3 paginator (all pages).
Tags come from `list_tags_for_resource(ResourceName=arn)`, with errors
caught and mapped to an empty dict, modelled as a total function. -/

structure DBInstance where
  dbInstanceIdentifier : String
  dbInstanceArn : String
  status : String
deriving DecidableEq, Repr

/-- One `AWSResource` per scanned DB instance (metadata not modelled). -/
def parseDBInstance (region : String) (tagsOf : String → Tags)
    (db : DBInstance) : AWSResource :=
  { resource_id := db.dbInstanceIdentifier
    resource_type := .RDS
    region := region
    tags := tagsOf db.dbInstanceArn
    state := db.status }

/-- `RDSScanner.scan` success path (no identifier filter): every page of
the paginator is consumed. -/
def rdsScan (region : String) (pages : List (List DBInstance))
    (tagsOf : String → Tags) : ScanResult :=
  let resources := pages.flatten.map (parseDBInstance region tagsOf)
  buildScanResult .RDS region resources

/-! ## EBS scanner (`ebs_scanner.py`)

`describe_volumes` is consumed through a boto3 paginator (all pages);
tags are embedded in each volume record. -/

structure EBSVolume where
  volumeId : String
  state : String
  tags : Tags
deriving DecidableEq, Repr

def parseVolume (region : String) (v : EBSVolume) : AWSResource :=
  { resource_id := v.volumeId
    resource_type := .EBS
    region := region
    tags := v.tags
    state := v.state }

/-- `EBSScanner.scan` success path (no volume-id filter): every page of
the paginator is consumed. -/
def ebsScan (region : String) (pages : List (List EBSVolume)) : ScanResult :=
  let resources := pages.flatten.map (parseVolume region)
  buildScanResult .EBS region resources

/-! ## S3 scanner (`s3_scanner.py`)

`list_buckets` is a single unpaginated call.  For every bucket the scan
fetches its location and tags; a `NoSuchBucket`/`AccessDenied` error on a
bucket skips that bucket.  Per-bucket data is modelled as a function from
bucket name to an optional (region, tags) pair, `none` meaning the bucket
was skipped. -/

def s3Scan (buckets : List String)
    (info : String → Option (String × Tags)) : ScanResult :=
  let resources := buckets.filterMap (fun b =>
    match info b with
    | some rt =>
      some { resource_id := b
             resource_type := ResourceType.S3
             region := rt.1
             tags := rt.2
             state := "active" : AWSResource }
    | none => none)
  buildScanResult .S3 "global" resources

/-- `S3Scanner.apply_tags`: fetch the bucket's existing tags, merge them
with the requested tags (`{**existing_tags, **tags}`, requested tags
override), and return the full tag set written back by
`put_bucket_tagging`. -/
def s3ApplyTagsWritten (getBucketTags : String → Tags)
    (resource_id : String) (tags : Tags) : Tags :=
  let existing := getBucketTags resource_id
  mergeDicts existing tags

/-- `RDSScanner.apply_tags`: resolve the instance ARN via
`describe_db_instances` (raising when the instance is missing), fetch the
existing tags, merge (`{**existing_tags, **tags}`), remove every existing
key and add the merged set — the tag set the resource ends with is the
merged set. -/
def rdsApplyTagsWritten (describeArn : String → Option String)
    (tagsOfArn : String → Tags) (resource_id : String) (tags : Tags) :
    Except String Tags :=
  match describeArn resource_id with
  | none => .error (s!"RDS instance {resource_id} not found")
  | some arn =>
    let existing := tagsOfArn arn
    .ok (mergeDicts existing tags)

/-! ## Retry policy (tenacity decorators on every scanner)

Every `scan` / `apply_tags` is wrapped in
`@retry(stop=stop_after_attempt(3), wait=wait_exponential(multiplier=1,
min=2, max=10), ..., reraise=True)`.  EC2 and Lambda additionally pass
`retry=retry_if_exception_type(ClientError)`; S3, RDS and EBS pass no
`retry` argument, so tenacity's default — retry on any exception —
applies.  The remote call is modelled as a function from the (1-based)
attempt number to an outcome. -/

/-- Exceptions a wrapped remote call can raise, by botocore class. -/
inductive AwsError where
  | clientError (code : String)
  | botoCoreError (msg : String)
  | otherError (msg : String)
deriving DecidableEq, Repr

def isClientError : AwsError → Bool
  | .clientError _ => true
  | _ => false

/-- `retry_if_exception_type(ClientError)` (EC2 and Lambda scanners). -/
def retryIfClientError (e : AwsError) : Bool := isClientError e

/-- tenacity's default retry condition (S3, RDS, EBS scanners):
retry on any exception. -/
def retryOnAnyError (_ : AwsError) : Bool := true

/-- `wait_exponential(multiplier=1, min=2, max=10)`: the sleep inserted
after the given (1-based) failed attempt, in seconds, clamped into
[min, max]. -/
def waitExponentialSeconds (multiplier mn mx attempt : Nat) : Nat :=
  max mn (min (multiplier * 2 ^ attempt) mx)

/-- The tenacity retry loop, at the given attempt with `remaining` further
attempts allowed: a success returns; a failure is retried while the retry
condition holds and attempts remain, and is re-raised (`reraise=True`)
otherwise.  Returns the outcome and the number of attempts made. -/
def retryGo {α : Type} (pred : AwsError → Bool)
    (act : Nat → Except AwsError α) (attempt : Nat) :
    Nat → Except AwsError α × Nat
  | 0 => (act attempt, attempt)
  | remaining + 1 =>
    match act attempt with
    | .ok a => (.ok a, attempt)
    | .error e =>
      if pred e then retryGo pred act (attempt + 1) remaining
      else (.error e, attempt)

/-- A call wrapped in `@retry(stop=stop_after_attempt(maxAttempts), ...)`:
attempts are numbered from 1. -/
def retryCall {α : Type} (pred : AwsError → Bool) (maxAttempts : Nat)
    (act : Nat → Except AwsError α) : Except AwsError α × Nat :=
  retryGo pred act 1 (maxAttempts - 1)

/-! ## Multi-region scanner (`multi_region_scanner.py`)

Each region is scanned by a fresh scanner on a worker thread; the remote
behaviour of one region's scan is modelled as an environment mapping the
region to either a `ScanResult` or the message of the exception the scan
raised.  Results are collected in submission order (the code iterates the
futures dict, which preserves insertion order). -/

structure RegionScanResult where
  region : String
  resource_type : ResourceType
  scan_result : Option ScanResult
  success : Bool
  error : Option String
  scan_duration_seconds : ℚ
deriving DecidableEq, Repr

structure MultiRegionScanResult where
  resource_type : ResourceType
  regions_scanned : List String
  successful_scans : Nat
  failed_scans : Nat
  total_resources : Nat
  total_untagged : Nat
  total_tagged : Nat
  tagging_compliance_rate : ℚ
  region_results : List RegionScanResult
deriving DecidableEq, Repr

abbrev ScanEnv := String → Except String ScanResult

/-- `MultiRegionScanner._scan_region`: a successful scan yields a
successful `RegionScanResult`; any exception is caught and recorded as
`success=False` with error string `f"Failed to scan {region}: {e}"`
(durations are modelled as 0). -/
def scanRegion (rt : ResourceType) (env : ScanEnv) (region : String) :
    RegionScanResult :=
  match env region with
  | .ok sr =>
    { region := region, resource_type := rt, scan_result := some sr
      success := true, error := none, scan_duration_seconds := 0 }
  | .error e =>
    { region := region, resource_type := rt, scan_result := none
      success := false, error := some (s!"Failed to scan {region}: {e}")
      scan_duration_seconds := 0 }

/-- Accumulator of the aggregation loop in `scan_all_regions`. -/
structure Agg where
  total : Nat
  untagged : Nat
  tagged : Nat
  ok : Nat
  bad : Nat
deriving DecidableEq, Repr

/-- The aggregation loop: `if result.success and result.scan_result:` add
the region's counts and bump `successful_scans`, else bump `failed_scans`. -/
def aggregateResults : List RegionScanResult → Agg
  | [] => { total := 0, untagged := 0, tagged := 0, ok := 0, bad := 0 }
  | r :: rs =>
    let a := aggregateResults rs
    match r.success, r.scan_result with
    | true, some sr =>
      { total := sr.total_resources + a.total
        untagged := sr.untagged_resources.length + a.untagged
        tagged := sr.tagged_resources.length + a.tagged
        ok := a.ok + 1
        bad := a.bad }
    | _, _ =>
      { total := a.total, untagged := a.untagged, tagged := a.tagged
        ok := a.ok, bad := a.bad + 1 }

/-- `MultiRegionScanner.scan_all_regions` on an explicit region list. -/
def scanAllRegions (rt : ResourceType) (env : ScanEnv)
    (regions : List String) : MultiRegionScanResult :=
  let region_results := regions.map (scanRegion rt env)
  let a := aggregateResults region_results
  { resource_type := rt
    regions_scanned := regions
    successful_scans := a.ok
    failed_scans := a.bad
    total_resources := a.total
    total_untagged := a.untagged
    total_tagged := a.tagged
    tagging_compliance_rate :=
      if a.total > 0 then ((a.tagged : ℚ) / (a.total : ℚ)) * 100 else 0
    region_results := region_results }

/-- A value of the per-region summary dict built by
`MultiRegionScanResult.get_region_summary` (numbers, or the optional
error string). -/
inductive SummaryVal where
  | num (q : ℚ)
  | str (s : Option String)
deriving DecidableEq, Repr

/-- One region's entry in `get_region_summary`, with the exact keys the
code puts in the dict. -/
def regionSummaryEntry (r : RegionScanResult) : List (String × SummaryVal) :=
  match r.success, r.scan_result with
  | true, some sr =>
    [("total", .num sr.total_resources),
     ("untagged", .num sr.untagged_resources.length),
     ("tagged", .num sr.tagged_resources.length),
     ("compliance_rate", .num sr.tagging_compliance_rate),
     ("scan_duration", .num r.scan_duration_seconds)]
  | _, _ =>
    [("total", .num 0), ("error", .str r.error)]

/-- `MultiRegionScanResult.get_region_summary`. -/
def getRegionSummary (m : MultiRegionScanResult) :
    List (String × List (String × SummaryVal)) :=
  m.region_results.map (fun r => (r.region, regionSummaryEntry r))

/-- Lookup in an association list with arbitrary value type (dict access
in the summary structures). -/
def assocGet {β : Type} (d : List (String × β)) (k : String) : Option β :=
  match d.find? (fun p => p.1 == k) with
  | some p => some p.2
  | none => none

/-! ## Bulk tagging engine (`bulk_operations.py`)

`scanner.apply_tags(resource_id, tags)` is a remote call; its behaviour is
modelled as an environment from (resource id, tags) to an outcome — the
returned bool, or the message of a raised exception.  (`_get_scanner`
cannot fail here: every `ResourceType` is in its map.)  Alongside the
result, the embedding returns the list of `apply_tags` calls issued, in
order, to express "no remote call" / "re-applies" properties. -/

inductive OperationStatus where
  | pending | in_progress | completed | failed | rolled_back
deriving DecidableEq, Repr

structure TagOperation where
  resource_id : String
  resource_type : ResourceType
  region : String
  tags_to_apply : Tags
  original_tags : Tags
  status : OperationStatus
  error : Option String
deriving DecidableEq, Repr

inductive ApplyOutcome where
  | ok (success : Bool)
  | exn (msg : String)
deriving DecidableEq, Repr

abbrev ApplyEnv := String → Tags → ApplyOutcome

structure BulkTaggingResult where
  total_operations : Nat
  successful : Nat
  failed : Nat
  rolled_back : Nat
  operations : List TagOperation
  dry_run : Bool
deriving DecidableEq, Repr

/-- The `TagOperation` created for each input resource at the start of a
bulk call: original tags captured, status pending. -/
def mkOperation (tags : Tags) (r : AWSResource) : TagOperation :=
  { resource_id := r.resource_id
    resource_type := r.resource_type
    region := r.region
    tags_to_apply := tags
    original_tags := r.tags
    status := .pending
    error := none }

/-- One iteration of the inner batch loop: mark in-progress, call
`apply_tags`, and record the outcome on the operation (`True` →
completed; `False` → failed with error "Tagging returned False";
exception → failed with the exception message). -/
def applyOne (env : ApplyEnv) (op : TagOperation) : TagOperation :=
  match env op.resource_id op.tags_to_apply with
  | .ok true => { op with status := .completed }
  | .ok false =>
    { op with status := .failed, error := some "Tagging returned False" }
  | .exn m => { op with status := .failed, error := some m }

/-- Whether the `apply_tags` call for this operation raises (the case
that triggers the fail-fast `break` inside a batch). -/
def opRaised (env : ApplyEnv) (op : TagOperation) : Bool :=
  match env op.resource_id op.tags_to_apply with
  | .exn _ => true
  | _ => false

/-- The inner loop over one batch: each operation is attempted in order;
after an operation whose `apply_tags` raised, `fail_fast` breaks out,
leaving the rest of the batch untouched.  Also returns the `apply_tags`
calls issued. -/
def processBatch (env : ApplyEnv) (ff : Bool) :
    List TagOperation → List TagOperation × List (String × Tags)
  | [] => ([], [])
  | op :: rest =>
    let op' := applyOne env op
    let call := (op.resource_id, op.tags_to_apply)
    if ff && opRaised env op then (op' :: rest, [call])
    else
      let r := processBatch env ff rest
      (op' :: r.1, call :: r.2)

/-- The outer loop over batches: after a batch, `if fail_fast and
any(op.status == FAILED for op in batch): break`, leaving the remaining
batches untouched. -/
def processBatches (env : ApplyEnv) (ff : Bool) :
    List (List TagOperation) → List TagOperation × List (String × Tags)
  | [] => ([], [])
  | b :: bs =>
    let r := processBatch env ff b
    if ff && r.1.any (fun op => op.status == OperationStatus.failed) then
      (r.1 ++ bs.flatten, r.2)
    else
      let rs := processBatches env ff bs
      (r.1 ++ rs.1, r.2 ++ rs.2)

/-- Structural worker for `chunks`: `fuel` only bounds the recursion
depth (each step consumes at least one element, so any `fuel ≥ l.length`
gives the same result). -/
def chunksFuel {α : Type} (b : Nat) : Nat → List α → List (List α)
  | _, [] => []
  | 0, _ :: _ => []
  | fuel + 1, x :: xs =>
    (x :: xs).take (max b 1) :: chunksFuel b fuel ((x :: xs).drop (max b 1))

/-- `operations[i:i + batch_size]` slicing, `for i in range(0, len, bs)`.
(The engine is only ever instantiated with a positive batch size; `max b 1`
makes the step total without changing any `b ≥ 1` behaviour.) -/
def chunks {α : Type} (b : Nat) (l : List α) : List (List α) :=
  chunksFuel b l.length l

/-- `_rollback_operations` body for one operation: only completed
operations are touched; when the captured original tags are non-empty they
are re-applied via `apply_tags` (an exception there leaves the operation
completed and uncounted); the operation is then marked rolled-back and
counted.  Returns (operation, counted, calls issued). -/
def rollbackOp (env : ApplyEnv) (op : TagOperation) :
    TagOperation × Nat × List (String × Tags) :=
  if op.status = .completed then
    match op.original_tags with
    | [] => ({ op with status := .rolled_back }, 1, [])
    | t :: ts =>
      match env op.resource_id (t :: ts) with
      | .exn _ => (op, 0, [(op.resource_id, t :: ts)])
      | .ok _ => ({ op with status := .rolled_back }, 1,
                  [(op.resource_id, t :: ts)])
  else (op, 0, [])

/-- The operation after the rollback pass. -/
def rolledBackOp (env : ApplyEnv) (op : TagOperation) : TagOperation :=
  (rollbackOp env op).1

/-- `_rollback_operations` over the whole (in-place mutated) operation
list: returns the final list, the rolled-back count, and the calls. -/
def rollbackAll (env : ApplyEnv) :
    List TagOperation → List TagOperation × Nat × List (String × Tags)
  | [] => ([], 0, [])
  | op :: rest =>
    let r := rollbackOp env op
    let rs := rollbackAll env rest
    (r.1 :: rs.1, r.2.1 + rs.2.1, r.2.2 ++ rs.2.2)

/-- `len([op for op in ops if op.status == s])` — the loop counters
`successful` / `failed` equal these counts over the processed list, since
each processed operation bumps exactly the counter of its final status and
unprocessed operations stay pending. -/
def countStatus (s : OperationStatus) (ops : List TagOperation) : Nat :=
  (ops.filter (fun op => op.status == s)).length

/-- Engine construction parameters (`BulkTaggingEngine.__init__`
defaults: `batch_size=50`, `enable_rollback=True`). -/
structure EngineConfig where
  batch_size : Nat := 50
  enable_rollback : Bool := true
deriving DecidableEq, Repr

/-- The operation list as it stands when the batch loop has finished,
before any rollback. -/
def processedOps (cfg : EngineConfig) (env : ApplyEnv)
    (resources : List AWSResource) (tags : Tags) (ff : Bool) :
    List TagOperation :=
  (processBatches env ff
    (chunks cfg.batch_size (resources.map (mkOperation tags)))).1

/-- `BulkTaggingEngine.bulk_tag_resources`, returning the result and the
list of `apply_tags` calls issued (tagging calls, then rollback calls). -/
def bulkTagResourcesFull (cfg : EngineConfig) (env : ApplyEnv)
    (resources : List AWSResource) (tags : Tags)
    (dry_run ff : Bool) : BulkTaggingResult × List (String × Tags) :=
  let operations := resources.map (mkOperation tags)
  if dry_run then
    let ops := operations.map (fun op => { op with status := OperationStatus.completed })
    ({ total_operations := ops.length
       successful := ops.length
       failed := 0
       rolled_back := 0
       operations := ops
       dry_run := true }, [])
  else
    let pr := processBatches env ff (chunks cfg.batch_size operations)
    let successful := countStatus .completed pr.1
    let failed := countStatus .failed pr.1
    if cfg.enable_rollback && failed > 0 then
      let rb := rollbackAll env pr.1
      ({ total_operations := pr.1.length
         successful := 0
         failed := failed
         rolled_back := rb.2.1
         operations := rb.1
         dry_run := false }, pr.2 ++ rb.2.2)
    else
      ({ total_operations := pr.1.length
         successful := successful
         failed := failed
         rolled_back := 0
         operations := pr.1
         dry_run := false }, pr.2)

/-- `bulk_tag_resources`' returned `BulkTaggingResult`. -/
def bulkTagResources (cfg : EngineConfig) (env : ApplyEnv)
    (resources : List AWSResource) (tags : Tags)
    (dry_run ff : Bool) : BulkTaggingResult :=
  (bulkTagResourcesFull cfg env resources tags dry_run ff).1

/-! ## Spec-side predicates -/

/-- The ScanResult partition invariant of §8 of the spec: tagged and
untagged partition the scanned resources, membership determined solely by
`is_tagged`, and the counts add up to the total. -/
def partitionOk (r : ScanResult) : Prop :=
  r.tagged_resources.length + r.untagged_resources.length = r.total_resources ∧
  ∀ x ∈ r.resources,
    (x ∈ r.tagged_resources ↔ x.is_tagged = true) ∧
    (x ∈ r.untagged_resources ↔ x.is_tagged = false)

/-- Spec-side aggregate: the sum of `f` over only the region results with
`success = true` (and a scan result present); failed regions contribute
nothing. -/
def sumOverSuccesses (f : ScanResult → Nat)
    (rs : List RegionScanResult) : Nat :=
  (rs.filterMap (fun r =>
    if r.success then r.scan_result.map f else none)).sum

/-! ## Concrete inputs for the claims' scenarios -/

def tagsDev : Tags := [("Environment", "dev")]

def inst1 : AWSResource :=
  { resource_id := "i-1", resource_type := .EC2, region := "us-west-2"
    tags := [("Name", "one")], state := "running" }

def inst2 : AWSResource :=
  { resource_id := "i-2", resource_type := .EC2, region := "us-west-2"
    tags := [], state := "running" }

def inst3 : AWSResource :=
  { resource_id := "i-3", resource_type := .EC2, region := "us-west-2"
    tags := [("Name", "three")], state := "running" }

/-- Tagging `i-2` with the requested tags raises (a transient error that
exhausted its retries); every other `apply_tags` call succeeds. -/
def envMid : ApplyEnv := fun rid tags =>
  if rid == "i-2" && tags == tagsDev then
    .exn "RequestLimitExceeded" else .ok true

def scanRes (region : String) (rs : List AWSResource) : ScanResult :=
  buildScanResult .EC2 region rs

def resIn (region id : String) (tags : Tags) : AWSResource :=
  { resource_id := id, resource_type := .EC2, region := region
    tags := tags, state := "running" }

/-- Region scans for C4's scenario B: "a" and "c" succeed, "b" raises a
permission error. -/
def envABC : ScanEnv := fun region =>
  if region == "b" then .error "AccessDenied"
  else if region == "a" then
    .ok (scanRes "a" [resIn "a" "a-1" [("Env", "p")], resIn "a" "a-2" []])
  else
    .ok (scanRes "c" [resIn "c" "c-1" [], resIn "c" "c-2" [], resIn "c" "c-3" []])

/-- A two-page `describe_instances` listing: `i-1` on the first page
(which carries a `NextToken`), `i-2` on the second. -/
def c6pages : List EC2Page :=
  [{ reservations := [{ instances := [{ instanceId := "i-1", state := "running", tags := [] }] }]
     nextToken := some "token-1" },
   { reservations := [{ instances := [{ instanceId := "i-2", state := "running", tags := [] }] }]
     nextToken := none }]

def resA : AWSResource :=
  { resource_id := "r-a", resource_type := .EC2, region := "us-east-1"
    tags := [], state := "running" }

def resB : AWSResource :=
  { resource_id := "r-b", resource_type := .EC2, region := "us-east-1"
    tags := [], state := "running" }

/-- `apply_tags` returns `False` for `r-a` and `True` for everything
else — a failure that is recorded without an exception being raised. -/
def envFalseFirst : ApplyEnv := fun rid _ =>
  if rid == "r-a" then .ok false else .ok true

/-! ## Helper lemmas: dictionaries -/

theorem dictGet_cons (p : String × String) (ps : Tags) (k : String) :
    dictGet (p :: ps) k = if p.1 == k then some p.2 else dictGet ps k := by
  by_cases h : p.1 == k
  · simp [dictGet, List.find?_cons_of_pos _ h, h]
  · simp [dictGet, List.find?_cons_of_neg _ h, h]

theorem dictGet_append (xs ys : Tags) (k : String) :
    dictGet (xs ++ ys) k =
      match dictGet xs k with
      | some v => some v
      | none => dictGet ys k := by
  induction xs with
  | nil => simp [dictGet]
  | cons p ps ih =>
    by_cases h : p.1 == k
    · simp [dictGet_cons, h]
    · simp [dictGet_cons, h, ih]

theorem dictGet_overrideMap (a b : Tags) (k : String) :
    dictGet (a.map (fun p => (p.1, ((dictGet b p.1).getD p.2)))) k =
      (dictGet a k).map (fun v => (dictGet b k).getD v) := by
  induction a with
  | nil => simp [dictGet]
  | cons p ps ih =>
    by_cases h : p.1 == k
    · have hk : p.1 = k := eq_of_beq h
      simp [dictGet_cons, h, hk]
    · simp [dictGet_cons, h, ih]

theorem dictGet_filterNotIn (a b : Tags) (k : String) :
    dictGet (b.filter (fun p => (dictGet a p.1).isNone)) k =
      if (dictGet a k).isNone then dictGet b k else none := by
  induction b with
  | nil => simp [dictGet]
  | cons p ps ih =>
    by_cases hk : p.1 == k
    · have hk' : p.1 = k := eq_of_beq hk
      by_cases ha : (dictGet a k).isNone
      · rw [List.filter_cons]
        simp only [hk', ha, if_pos]
        simp [dictGet_cons, hk', ih, ha]
      · rw [List.filter_cons]
        simp only [hk', ha, if_neg]
        simp [ih, ha]
    · by_cases hp : (dictGet a p.1).isNone
      · rw [List.filter_cons]
        simp only [hp, if_pos]
        simp [dictGet_cons, hk, ih]
      · rw [List.filter_cons]
        simp only [hp]
        simp [ih, dictGet_cons, hk]

/-- Lookup in a Python merge `{**a, **b}`: the requested (second) dict
wins, otherwise the existing (first) dict's binding survives. -/
theorem dictGet_mergeDicts (a b : Tags) (k : String) :
    dictGet (mergeDicts a b) k =
      match dictGet b k with
      | some v => some v
      | none => dictGet a k := by
  unfold mergeDicts
  rw [dictGet_append, dictGet_overrideMap, dictGet_filterNotIn]
  cases hb : dictGet b k <;> cases ha : dictGet a k <;> simp [hb, ha]

/-! ## Helper lemmas: partitions -/

theorem length_filter_split (l : List AWSResource) (p : AWSResource → Bool) :
    (l.filter p).length + (l.filter (fun r => !p r)).length = l.length := by
  induction l with
  | nil => simp
  | cons x xs ih =>
    by_cases h : p x <;> simp [List.filter_cons, h] <;> omega

theorem buildScanResult_partitionOk (rt : ResourceType) (region : String)
    (l : List AWSResource) : partitionOk (buildScanResult rt region l) := by
  refine ⟨length_filter_split l _, ?_⟩
  intro x hx
  have hx' : x ∈ l := hx
  refine ⟨?_, ?_⟩
  · simp only [buildScanResult, List.mem_filter]
    exact ⟨fun h => h.2, fun h => ⟨hx', h⟩⟩
  · simp only [buildScanResult, List.mem_filter]
    constructor
    · intro h
      simpa using h.2
    · intro h
      exact ⟨hx', by simpa using h⟩

/-! ## Helper lemmas: batching -/

theorem chunksFuel_flatten {α : Type} (b : Nat) :
    ∀ (fuel : Nat) (l : List α), l.length ≤ fuel →
      (chunksFuel b fuel l).flatten = l := by
  intro fuel
  induction fuel with
  | zero =>
    intro l hl
    cases l with
    | nil => rfl
    | cons x xs => simp at hl
  | succ n ih =>
    intro l hl
    cases l with
    | nil => rfl
    | cons x xs =>
      simp only [chunksFuel, List.flatten_cons]
      rw [ih _ (by
        have h1 : 1 ≤ max b 1 := le_max_right b 1
        simp only [List.length_drop, List.length_cons]
        simp only [List.length_cons] at hl
        omega)]
      exact List.take_append_drop _ _

theorem chunks_flatten {α : Type} (b : Nat) (l : List α) :
    (chunks b l).flatten = l :=
  chunksFuel_flatten b l.length l le_rfl

/-! ## Helper lemmas: retry -/

theorem retryGo_attempts_le {α : Type} (pred : AwsError → Bool)
    (act : Nat → Except AwsError α) (attempt remaining : Nat) :
    (retryGo pred act attempt remaining).2 ≤ attempt + remaining := by
  induction remaining generalizing attempt with
  | zero => simp [retryGo]
  | succ r ih =>
    simp only [retryGo]
    cases act attempt with
    | ok a => simp
    | error e =>
      by_cases hp : pred e
      · simp only [hp, if_pos]
        have := ih (attempt + 1)
        omega
      · simp [hp]

theorem retryCall_attempts_le {α : Type} (pred : AwsError → Bool)
    (act : Nat → Except AwsError α) :
    (retryCall pred 3 act).2 ≤ 3 :=
  retryGo_attempts_le pred act 1 2

/-! ## Helper lemmas: batch processing -/

theorem applyOne_status (env : ApplyEnv) (op : TagOperation) :
    (applyOne env op).status = .completed ∨ (applyOne env op).status = .failed := by
  unfold applyOne
  cases h : env op.resource_id op.tags_to_apply with
  | ok b => cases b <;> simp
  | exn m => simp

theorem applyOne_failed_of_raised (env : ApplyEnv) (op : TagOperation)
    (h : opRaised env op = true) : (applyOne env op).status = .failed := by
  unfold opRaised at h
  unfold applyOne
  cases he : env op.resource_id op.tags_to_apply with
  | ok b => rw [he] at h; simp at h
  | exn m => simp

theorem processBatch_noff (env : ApplyEnv) (l : List TagOperation) :
    (processBatch env false l).1 = l.map (applyOne env) := by
  induction l with
  | nil => rfl
  | cons op rest ih => simp [processBatch, ih]

theorem processBatches_noff (env : ApplyEnv) (bs : List (List TagOperation)) :
    (processBatches env false bs).1 = bs.flatten.map (applyOne env) := by
  induction bs with
  | nil => rfl
  | cons b bs ih => simp [processBatches, processBatch_noff, ih]

theorem processBatch_mem (env : ApplyEnv) (ff : Bool) (l : List TagOperation) :
    ∀ op' ∈ (processBatch env ff l).1,
      (∃ op ∈ l, op' = applyOne env op) ∨ op' ∈ l := by
  induction l with
  | nil => simp [processBatch]
  | cons op rest ih =>
    intro op' hmem
    simp only [processBatch] at hmem
    by_cases hc : ff && opRaised env op
    · rw [if_pos hc] at hmem
      rcases List.mem_cons.mp hmem with h | h
      · exact Or.inl ⟨op, List.mem_cons_self _ _, h⟩
      · exact Or.inr (List.mem_cons_of_mem _ h)
    · rw [if_neg hc] at hmem
      rcases List.mem_cons.mp hmem with h | h
      · exact Or.inl ⟨op, List.mem_cons_self _ _, h⟩
      · rcases ih op' h with ⟨o, ho, he⟩ | h'
        · exact Or.inl ⟨o, List.mem_cons_of_mem _ ho, he⟩
        · exact Or.inr (List.mem_cons_of_mem _ h')

theorem processBatches_mem (env : ApplyEnv) (ff : Bool)
    (bs : List (List TagOperation)) :
    ∀ op' ∈ (processBatches env ff bs).1,
      (∃ op ∈ bs.flatten, op' = applyOne env op) ∨ op' ∈ bs.flatten := by
  induction bs with
  | nil => simp [processBatches]
  | cons b bs ih =>
    intro op' hmem
    simp only [processBatches] at hmem
    have hfromBatch : op' ∈ (processBatch env ff b).1 →
        (∃ op ∈ (b :: bs).flatten, op' = applyOne env op) ∨ op' ∈ (b :: bs).flatten := by
      intro h1
      rcases processBatch_mem env ff b op' h1 with ⟨o, ho, he⟩ | h'
      · exact Or.inl ⟨o, by
          simp only [List.flatten_cons, List.mem_append]
          exact Or.inl ho, he⟩
      · exact Or.inr (by
          simp only [List.flatten_cons, List.mem_append]
          exact Or.inl h')
    by_cases h : ff && (processBatch env ff b).1.any
        (fun op => op.status == OperationStatus.failed)
    · rw [if_pos h] at hmem
      rcases List.mem_append.mp hmem with h1 | h1
      · exact hfromBatch h1
      · exact Or.inr (by
          simp only [List.flatten_cons, List.mem_append]
          exact Or.inr h1)
    · rw [if_neg h] at hmem
      rcases List.mem_append.mp hmem with h1 | h1
      · exact hfromBatch h1
      · rcases ih op' h1 with ⟨o, ho, he⟩ | h'
        · exact Or.inl ⟨o, by
            simp only [List.flatten_cons, List.mem_append]
            exact Or.inr ho, he⟩
        · exact Or.inr (by
            simp only [List.flatten_cons, List.mem_append]
            exact Or.inr h')

/-- Fail-fast inner loop: some prefix of the batch is processed, the rest
is untouched, and a raising operation can only sit at the very end of the
processed prefix (the `break`); if the batch was cut short, the last
processed operation raised. -/
theorem processBatch_ff (env : ApplyEnv) (l : List TagOperation) :
    ∃ k, k ≤ l.length ∧
      (processBatch env true l).1 = (l.take k).map (applyOne env) ++ l.drop k ∧
      (∀ j op, j < k → l[j]? = some op → opRaised env op = true → j = k - 1) ∧
      (k < l.length → 0 < k ∧ ∃ op, l[k - 1]? = some op ∧ opRaised env op = true) := by
  induction l with
  | nil =>
    refine ⟨0, le_rfl, by simp [processBatch], ?_, ?_⟩
    · intro j o hj
      exact absurd hj (Nat.not_lt_zero j)
    · intro h
      exact absurd h (lt_irrefl 0)
  | cons op rest ih =>
    by_cases hr : opRaised env op
    · refine ⟨1, by simp, ?_, ?_, ?_⟩
      · simp [processBatch, hr]
      · intro j o hj hget hro
        omega
      · intro _
        exact ⟨Nat.one_pos, op, by simp, hr⟩
    · obtain ⟨k, hk, heq, hraise, hstop⟩ := ih
      refine ⟨k + 1, by simp; omega, ?_, ?_, ?_⟩
      · simp [processBatch, hr, heq]
      · intro j o hj hget hro
        cases j with
        | zero =>
          have hoeq : op = o := by simpa using hget
          rw [← hoeq] at hro
          exact absurd hro hr
        | succ j' =>
          have hj' : j' < k := by omega
          have h1 := hraise j' o hj' (by simpa using hget) hro
          omega
      · intro hlen
        have hklen : k < rest.length := by
          simp only [List.length_cons] at hlen
          omega
        obtain ⟨hpos, o, hget, hro⟩ := hstop hklen
        refine ⟨by omega, o, ?_, hro⟩
        have hsk : k + 1 - 1 = k := rfl
        rw [hsk]
        cases k with
        | zero => exact absurd hpos (lt_irrefl 0)
        | succ k' => simpa using hget

/-- Fail-fast outer loop over the batched operation list: the overall
processed operations form a prefix of the flattened list (the rest stays
untouched), and a raising operation can only be the last processed one. -/
theorem processBatches_ff (env : ApplyEnv) (bs : List (List TagOperation)) :
    ∃ k, k ≤ bs.flatten.length ∧
      (processBatches env true bs).1 =
        (bs.flatten.take k).map (applyOne env) ++ bs.flatten.drop k ∧
      (∀ j op, j < k → bs.flatten[j]? = some op → opRaised env op = true →
        j = k - 1) := by
  induction bs with
  | nil =>
    exact ⟨0, le_rfl, by simp [processBatches],
      fun j o hj => absurd hj (Nat.not_lt_zero j)⟩
  | cons b bs ih =>
    obtain ⟨k₁, hk₁, he₁, hr₁, hs₁⟩ := processBatch_ff env b
    by_cases hfail : (processBatch env true b).1.any
        (fun op => op.status == OperationStatus.failed) = true
    · refine ⟨k₁, ?_, ?_, ?_⟩
      · simp only [List.flatten_cons, List.length_append]
        omega
      · show (processBatches env true (b :: bs)).1 = _
        simp only [processBatches, Bool.true_and, hfail, if_pos]
        rw [he₁]
        simp only [List.flatten_cons, List.take_append_eq_append_take,
          List.drop_append_eq_append_drop, Nat.sub_eq_zero_of_le hk₁,
          List.take_zero, List.drop_zero, List.map_append, List.append_nil,
          List.append_assoc]
      · intro j o hj hget hro
        have hjb : j < b.length := lt_of_lt_of_le hj hk₁
        have hget' : b[j]? = some o := by
          rw [List.flatten_cons, List.getElem?_append, if_pos hjb] at hget
          exact hget
        exact hr₁ j o hj hget' hro
    · have hk₁eq : k₁ = b.length := by
        by_contra hne
        have hlt : k₁ < b.length := lt_of_le_of_ne hk₁ hne
        obtain ⟨hpos, o, hget, hro⟩ := hs₁ hlt
        have homem : o ∈ b.take k₁ := by
          have hgt : (b.take k₁)[k₁ - 1]? = some o := by
            rw [List.getElem?_take, if_pos (by omega)]
            exact hget
          exact List.getElem?_mem hgt
        have hmem : applyOne env o ∈ (processBatch env true b).1 := by
          rw [he₁]
          exact List.mem_append_left _ (List.mem_map_of_mem _ homem)
        have hofail : (applyOne env o).status = .failed :=
          applyOne_failed_of_raised env o hro
        exact hfail (List.any_eq_true.mpr ⟨_, hmem, by simp [hofail]⟩)
      obtain ⟨k₂, hk₂, he₂, hr₂⟩ := ih
      have hb' : (processBatch env true b).1 = b.map (applyOne env) := by
        rw [he₁, hk₁eq, List.take_of_length_le le_rfl,
          List.drop_eq_nil_of_le le_rfl, List.append_nil]
      refine ⟨b.length + k₂, ?_, ?_, ?_⟩
      · simp only [List.flatten_cons, List.length_append]
        omega
      · show (processBatches env true (b :: bs)).1 = _
        simp only [processBatches, Bool.true_and, hfail, if_neg]
        rw [hb', he₂]
        rw [List.flatten_cons, List.take_append_eq_append_take,
          List.drop_append_eq_append_drop, Nat.add_sub_cancel_left,
          List.take_of_length_le (Nat.le_add_right _ _),
          List.drop_eq_nil_of_le (Nat.le_add_right _ _),
          List.map_append, List.nil_append, List.append_assoc]
        simp
      · intro j o hj hget hro
        rw [List.flatten_cons] at hget
        by_cases hjb : j < b.length
        · have hget' : b[j]? = some o := by
            rw [List.getElem?_append, if_pos hjb] at hget
            exact hget
          have homem : o ∈ b := List.getElem?_mem hget'
          have hmem : applyOne env o ∈ (processBatch env true b).1 := by
            rw [hb']
            exact List.mem_map_of_mem _ homem
          have hofail : (applyOne env o).status = .failed :=
            applyOne_failed_of_raised env o hro
          exact absurd (List.any_eq_true.mpr ⟨_, hmem, by simp [hofail]⟩) hfail
        · have hge : b.length ≤ j := Nat.le_of_not_lt hjb
          have hj' : j - b.length < k₂ := by omega
          have hbget : bs.flatten[j - b.length]? = some o := by
            rw [List.getElem?_append_right hge] at hget
            exact hget
          have h1 := hr₂ (j - b.length) o hj' hbget hro
          omega

/-! ## Helper lemmas: counting and rollback -/

theorem countStatus_append (s : OperationStatus) (l₁ l₂ : List TagOperation) :
    countStatus s (l₁ ++ l₂) = countStatus s l₁ + countStatus s l₂ := by
  simp [countStatus, List.filter_append]

theorem countStatus_terminal (l : List TagOperation)
    (h : ∀ op ∈ l, op.status = .completed ∨ op.status = .failed) :
    countStatus .completed l + countStatus .failed l = l.length := by
  induction l with
  | nil => simp [countStatus]
  | cons op rest ih =>
    have hop := h op (List.mem_cons_self _ _)
    have hrest := ih (fun o ho => h o (List.mem_cons_of_mem _ ho))
    rcases hop with hc | hf
    · simp only [countStatus, List.filter_cons, hc, List.length_cons] at hrest ⊢
      simp only [show ((OperationStatus.completed == OperationStatus.completed) = true)
        from rfl, show ((OperationStatus.completed == OperationStatus.failed) = false)
        from rfl]
      simp at hrest ⊢
      omega
    · simp only [countStatus, List.filter_cons, hf, List.length_cons] at hrest ⊢
      simp only [show ((OperationStatus.failed == OperationStatus.completed) = false)
        from rfl, show ((OperationStatus.failed == OperationStatus.failed) = true)
        from rfl]
      simp at hrest ⊢
      omega

theorem countStatus_zero (s : OperationStatus) (l : List TagOperation)
    (h : ∀ op ∈ l, op.status ≠ s) : countStatus s l = 0 := by
  simp only [countStatus, List.length_eq_zero]
  rw [List.filter_eq_nil_iff]
  intro op hmem
  simp [h op hmem]

theorem mkOperation_pending (tags : Tags) (resources : List AWSResource) :
    ∀ op ∈ resources.map (mkOperation tags), op.status = .pending := by
  intro op hmem
  obtain ⟨r, _, hr⟩ := List.mem_map.mp hmem
  rw [← hr]
  rfl

theorem rollbackAll_fst (env : ApplyEnv) (l : List TagOperation) :
    (rollbackAll env l).1 = l.map (rolledBackOp env) := by
  induction l with
  | nil => rfl
  | cons op rest ih => simp [rollbackAll, ih, rolledBackOp]

theorem rolledBackOp_not_completed (env : ApplyEnv) (op : TagOperation)
    (h : ¬op.status = .completed) : rolledBackOp env op = op := by
  unfold rolledBackOp rollbackOp
  rw [if_neg h]

theorem rollbackOp_completed_nil (env : ApplyEnv) (op : TagOperation)
    (hc : op.status = .completed) (ho : op.original_tags = []) :
    rollbackOp env op = ({ op with status := .rolled_back }, 1, []) := by
  unfold rollbackOp
  rw [if_pos hc, ho]

theorem rollbackOp_completed_cons (env : ApplyEnv) (op : TagOperation)
    (hc : op.status = .completed) (t : String × String) (ts : Tags)
    (ho : op.original_tags = t :: ts) :
    rollbackOp env op =
      match env op.resource_id (t :: ts) with
      | .exn _ => (op, 0, [(op.resource_id, t :: ts)])
      | .ok _ =>
        ({ op with status := .rolled_back }, 1, [(op.resource_id, t :: ts)]) := by
  unfold rollbackOp
  rw [if_pos hc, ho]

theorem rolledBackOp_of_completed (env : ApplyEnv) (op : TagOperation)
    (hc : op.status = .completed)
    (hok : ∀ m, env op.resource_id op.original_tags ≠ .exn m) :
    (rolledBackOp env op).status = .rolled_back := by
  unfold rolledBackOp
  cases ho : op.original_tags with
  | nil => rw [rollbackOp_completed_nil env op hc ho]
  | cons t ts =>
    rw [rollbackOp_completed_cons env op hc t ts ho]
    cases he : env op.resource_id (t :: ts) with
    | ok b => rfl
    | exn m =>
      have hne := hok m
      rw [ho] at hne
      exact absurd he hne

theorem rolledBackOp_status (env : ApplyEnv) (op : TagOperation) :
    (rolledBackOp env op).status = op.status ∨
      ((rolledBackOp env op).status = .rolled_back ∧ op.status = .completed) := by
  by_cases h : op.status = .completed
  · unfold rolledBackOp
    cases ho : op.original_tags with
    | nil =>
      rw [rollbackOp_completed_nil env op h ho]
      exact Or.inr ⟨rfl, h⟩
    | cons t ts =>
      rw [rollbackOp_completed_cons env op h t ts ho]
      cases he : env op.resource_id (t :: ts) with
      | ok b => exact Or.inr ⟨rfl, h⟩
      | exn m => exact Or.inl rfl
  · rw [rolledBackOp_not_completed env op h]
    exact Or.inl rfl

theorem rollbackAll_calls_mem (env : ApplyEnv) (l : List TagOperation) :
    ∀ op ∈ l, op.status = .completed → op.original_tags ≠ [] →
      (op.resource_id, op.original_tags) ∈ (rollbackAll env l).2.2 := by
  induction l with
  | nil => simp
  | cons o rest ih =>
    intro op hmem hc hne
    have hsplit : (rollbackAll env (o :: rest)).2.2 =
        (rollbackOp env o).2.2 ++ (rollbackAll env rest).2.2 := rfl
    rw [hsplit]
    rcases List.mem_cons.mp hmem with heq | hmem'
    · subst heq
      refine List.mem_append_left _ ?_
      cases ho : op.original_tags with
      | nil => exact absurd ho hne
      | cons t ts =>
        rw [rollbackOp_completed_cons env op hc t ts ho, ho]
        cases he : env op.resource_id (t :: ts) <;> simp
    · exact List.mem_append_right _ (ih op hmem' hc hne)

/-! ## Helper lemmas: bulk engine case analysis -/

theorem bulkTagFull_dry (cfg : EngineConfig) (env : ApplyEnv)
    (resources : List AWSResource) (tags : Tags) (ff : Bool) :
    bulkTagResourcesFull cfg env resources tags true ff =
      ({ total_operations := resources.length
         successful := resources.length
         failed := 0
         rolled_back := 0
         operations := (resources.map (mkOperation tags)).map
           (fun op => { op with status := OperationStatus.completed })
         dry_run := true }, []) := by
  unfold bulkTagResourcesFull
  simp

theorem bulkTagFull_rollback (cfg : EngineConfig) (env : ApplyEnv)
    (resources : List AWSResource) (tags : Tags) (ff : Bool)
    (hrb : cfg.enable_rollback = true)
    (hf : 0 < countStatus .failed (processedOps cfg env resources tags ff)) :
    bulkTagResourcesFull cfg env resources tags false ff =
      ({ total_operations := (processedOps cfg env resources tags ff).length
         successful := 0
         failed := countStatus .failed (processedOps cfg env resources tags ff)
         rolled_back := (rollbackAll env (processedOps cfg env resources tags ff)).2.1
         operations := (rollbackAll env (processedOps cfg env resources tags ff)).1
         dry_run := false },
       (processBatches env ff
         (chunks cfg.batch_size (resources.map (mkOperation tags)))).2 ++
         (rollbackAll env (processedOps cfg env resources tags ff)).2.2) := by
  unfold bulkTagResourcesFull processedOps
  unfold processedOps at hf
  simp only [Bool.false_eq_true, if_false, hrb, Bool.true_and]
  rw [if_pos (by simpa using hf)]

theorem bulkTagFull_norollback (cfg : EngineConfig) (env : ApplyEnv)
    (resources : List AWSResource) (tags : Tags) (ff : Bool)
    (h : cfg.enable_rollback = false ∨
      countStatus .failed (processedOps cfg env resources tags ff) = 0) :
    bulkTagResourcesFull cfg env resources tags false ff =
      ({ total_operations := (processedOps cfg env resources tags ff).length
         successful := countStatus .completed (processedOps cfg env resources tags ff)
         failed := countStatus .failed (processedOps cfg env resources tags ff)
         rolled_back := 0
         operations := processedOps cfg env resources tags ff
         dry_run := false },
       (processBatches env ff
         (chunks cfg.batch_size (resources.map (mkOperation tags)))).2) := by
  unfold bulkTagResourcesFull processedOps
  unfold processedOps at h
  simp only [Bool.false_eq_true, if_false]
  rw [if_neg]
  rcases h with h | h
  · simp [h]
  · simp [h]

theorem processedOps_prefix (cfg : EngineConfig) (env : ApplyEnv)
    (resources : List AWSResource) (tags : Tags) (ff : Bool) :
    ∃ k, k ≤ resources.length ∧
      processedOps cfg env resources tags ff =
        ((resources.map (mkOperation tags)).take k).map (applyOne env) ++
          (resources.map (mkOperation tags)).drop k ∧
      (ff = false → k = resources.length) := by
  cases ff with
  | false =>
    refine ⟨resources.length, le_rfl, ?_, fun _ => rfl⟩
    unfold processedOps
    rw [processBatches_noff, chunks_flatten]
    rw [List.take_of_length_le (by simp), List.drop_eq_nil_of_le (by simp),
      List.append_nil]
  | true =>
    obtain ⟨k, hk, he, _⟩ := processBatches_ff env
      (chunks cfg.batch_size (resources.map (mkOperation tags)))
    rw [chunks_flatten] at hk he
    refine ⟨k, by simpa using hk, he, by simp⟩

/-! ## Claims -/

/-- **C5**: every ScanResult any scanner's scan produces satisfies
`len(tagged) + len(untagged) = total`, and each scanned resource lies in
exactly one of the two partitions, determined solely by `is_tagged`. -/
theorem claim_C5_partition
    (regionE : String) (pagesE : List EC2Page)
    (regionL : String) (pagesL : List (List LambdaFunction))
    (tagsOfL : String → Tags) (rf : Option (List String))
    (regionR : String) (pagesR : List (List DBInstance))
    (tagsOfR : String → Tags)
    (regionV : String) (pagesV : List (List EBSVolume))
    (buckets : List String) (infoS : String → Option (String × Tags)) :
    partitionOk (ec2Scan regionE pagesE) ∧
    partitionOk (lambdaScan regionL pagesL tagsOfL rf) ∧
    partitionOk (rdsScan regionR pagesR tagsOfR) ∧
    partitionOk (ebsScan regionV pagesV) ∧
    partitionOk (s3Scan buckets infoS) :=
  ⟨buildScanResult_partitionOk _ _ _, buildScanResult_partitionOk _ _ _,
   buildScanResult_partitionOk _ _ _, buildScanResult_partitionOk _ _ _,
   buildScanResult_partitionOk _ _ _⟩

/-- **C3**: a dry-run bulk call issues no `apply_tags` call, its outcome is
independent of the tagging environment and of failFast, every created
operation is marked completed, and the result reports
`successful = len(resources)`, `failed = 0`, `rolled_back = 0`. -/
theorem claim_C3_dry_run (cfg : EngineConfig) (env env' : ApplyEnv)
    (resources : List AWSResource) (tags : Tags) (ff ff' : Bool) :
    (bulkTagResourcesFull cfg env resources tags true ff).2 = [] ∧
    bulkTagResourcesFull cfg env resources tags true ff =
      bulkTagResourcesFull cfg env' resources tags true ff' ∧
    (bulkTagResources cfg env resources tags true ff).successful =
      resources.length ∧
    (bulkTagResources cfg env resources tags true ff).failed = 0 ∧
    (bulkTagResources cfg env resources tags true ff).rolled_back = 0 ∧
    (bulkTagResources cfg env resources tags true ff).total_operations =
      resources.length ∧
    (bulkTagResources cfg env resources tags true ff).dry_run = true ∧
    ∀ op ∈ (bulkTagResources cfg env resources tags true ff).operations,
      op.status = .completed := by
  refine ⟨?_, ?_, ?_, ?_, ?_, ?_, ?_, ?_⟩
  · rw [bulkTagFull_dry]
  · rw [bulkTagFull_dry, bulkTagFull_dry]
  · simp [bulkTagResources, bulkTagFull_dry]
  · simp [bulkTagResources, bulkTagFull_dry]
  · simp [bulkTagResources, bulkTagFull_dry]
  · simp [bulkTagResources, bulkTagFull_dry]
  · simp [bulkTagResources, bulkTagFull_dry]
  · intro op hmem
    rw [bulkTagResources, bulkTagFull_dry] at hmem
    simp only [List.mem_map] at hmem
    obtain ⟨o, ⟨r, _, hr⟩, ho⟩ := hmem
    rw [← ho]

/-- **C2** (amended): every scanner's retry decorator makes at most 3
attempts, with exponential backoff whose first wait is 2s and whose waits
are capped at 10s, and re-raises the final error; but the retry condition
is retry-on-`ClientError` for EC2/Lambda and tenacity's
retry-on-any-exception default for S3/RDS/EBS, so authentication,
permission and not-found errors (all `ClientError`s) are retried until the
attempt cap instead of propagating immediately; only non-`ClientError`
errors propagate without retry, and only under the EC2/Lambda policy. -/
theorem claim_C2_retry_policy (code m : String) (e : AwsError) (a : Nat)
    (act actS : Nat → Except AwsError Unit) :
    (retryCall retryIfClientError 3 act).2 ≤ 3 ∧
    (retryCall retryOnAnyError 3 actS).2 ≤ 3 ∧
    waitExponentialSeconds 1 2 10 1 = 2 ∧
    waitExponentialSeconds 1 2 10 a ≤ 10 ∧
    retryIfClientError (.clientError code) = true ∧
    retryOnAnyError e = true ∧
    (retryCall retryIfClientError 3
        (fun _ => (.error (.clientError code) : Except AwsError Unit))) =
      (.error (.clientError code), 3) ∧
    (retryCall retryIfClientError 3
        (fun _ => (.error (.botoCoreError m) : Except AwsError Unit))) =
      (.error (.botoCoreError m), 1) ∧
    (retryCall retryOnAnyError 3
        (fun _ => (.error (.botoCoreError m) : Except AwsError Unit))) =
      (.error (.botoCoreError m), 3) := by
  refine ⟨retryCall_attempts_le _ _, retryCall_attempts_le _ _, rfl, ?_,
    rfl, rfl, rfl, rfl, rfl⟩
  exact Nat.max_le.mpr ⟨by omega, min_le_right _ _⟩

/-- **C2** (counterexample): under the EC2 retry policy an
`AccessDenied` (permission) `ClientError` is attempted 3 times — it is
retried, not propagated immediately as the claim states. -/
theorem claim_C2_counterexample :
    (retryCall retryIfClientError 3
        (fun _ => (.error (.clientError "AccessDenied") :
          Except AwsError Unit))).2 = 3 ∧
    ¬ (retryCall retryIfClientError 3
        (fun _ => (.error (.clientError "AccessDenied") :
          Except AwsError Unit))).2 = 1 :=
  ⟨rfl, by decide⟩

/-- **C6** (amended): the Lambda, RDS and EBS scanners consume every page
of their paginated listings — each listed item appears in the result and
the total equals the count across all pages; the EC2 scanner, however,
issues a single unpaginated `describe_instances()` call, so its result
depends only on the first page of the listing. -/
theorem claim_C6_pagination
    (regionE : String) (pagesE : List EC2Page)
    (regionL : String) (pagesL : List (List LambdaFunction))
    (tagsOfL : String → Tags)
    (regionR : String) (pagesR : List (List DBInstance))
    (tagsOfR : String → Tags)
    (regionV : String) (pagesV : List (List EBSVolume)) :
    (∀ f ∈ pagesL.flatten,
      parseFunction regionL tagsOfL f ∈
        (lambdaScan regionL pagesL tagsOfL none).resources) ∧
    (lambdaScan regionL pagesL tagsOfL none).total_resources =
      pagesL.flatten.length ∧
    (∀ db ∈ pagesR.flatten,
      parseDBInstance regionR tagsOfR db ∈
        (rdsScan regionR pagesR tagsOfR).resources) ∧
    (rdsScan regionR pagesR tagsOfR).total_resources =
      pagesR.flatten.length ∧
    (∀ v ∈ pagesV.flatten,
      parseVolume regionV v ∈ (ebsScan regionV pagesV).resources) ∧
    (ebsScan regionV pagesV).total_resources = pagesV.flatten.length ∧
    ec2Scan regionE pagesE = ec2Scan regionE (pagesE.take 1) := by
  have hfilter : pagesL.flatten.filter (runtimeKeep none) = pagesL.flatten :=
    List.filter_eq_self.mpr (fun f _ => rfl)
  refine ⟨?_, ?_, ?_, ?_, ?_, ?_, ?_⟩
  · intro f hf
    show parseFunction regionL tagsOfL f ∈
      (pagesL.flatten.filter (runtimeKeep none)).map (parseFunction regionL tagsOfL)
    rw [hfilter]
    exact List.mem_map_of_mem _ hf
  · show ((pagesL.flatten.filter (runtimeKeep none)).map
      (parseFunction regionL tagsOfL)).length = pagesL.flatten.length
    rw [hfilter, List.length_map]
  · intro db hdb
    exact List.mem_map_of_mem _ hdb
  · show (pagesR.flatten.map (parseDBInstance regionR tagsOfR)).length =
      pagesR.flatten.length
    rw [List.length_map]
  · intro v hv
    exact List.mem_map_of_mem _ hv
  · show (pagesV.flatten.map (parseVolume regionV)).length =
      pagesV.flatten.length
    rw [List.length_map]
  · cases pagesE with
    | nil => rfl
    | cons p ps => rfl

/-- **C6** (counterexample): on a two-page EC2 listing the instance on the
second page is listed by the provider but absent from the scan result —
the EC2 scan does not paginate until exhausted. -/
theorem claim_C6_counterexample :
    (c6pages.headD { reservations := [], nextToken := none }).nextToken =
      some "token-1" ∧
    ({ instanceId := "i-2", state := "running", tags := [] } : EC2Instance) ∈
      ec2ListedInstances c6pages ∧
    (ec2Scan "us-east-1" c6pages).total_resources = 1 ∧
    ∀ r ∈ (ec2Scan "us-east-1" c6pages).resources, r.resource_id ≠ "i-2" := by
  refine ⟨rfl, by decide, rfl, by decide⟩

theorem aggregateResults_spec (rs : List RegionScanResult) :
    (aggregateResults rs).total =
      sumOverSuccesses (fun sr => sr.total_resources) rs ∧
    (aggregateResults rs).untagged =
      sumOverSuccesses (fun sr => sr.untagged_resources.length) rs ∧
    (aggregateResults rs).tagged =
      sumOverSuccesses (fun sr => sr.tagged_resources.length) rs ∧
    (aggregateResults rs).ok =
      (rs.filter (fun r => r.success && r.scan_result.isSome)).length ∧
    (aggregateResults rs).bad =
      (rs.filter (fun r => !(r.success && r.scan_result.isSome))).length := by
  induction rs with
  | nil => exact ⟨rfl, rfl, rfl, rfl, rfl⟩
  | cons r rs ih =>
    obtain ⟨h1, h2, h3, h4, h5⟩ := ih
    cases hs : r.success <;> cases hsr : r.scan_result <;>
      simp [aggregateResults, sumOverSuccesses, List.filter_cons,
        List.filterMap_cons, hs, hsr, h1, h2, h3, h4, h5]

/-- **C4** (amended): the multi-region aggregate totals equal the sums
over only the successful region results — a failed region contributes 0 to
every numeric total; in scenario B (regions a, b, c with b raising a
permission error) there are 2 successful and 1 failed scans, and the
breakdown entry for b carries an error field together with a total field
equal to 0 (and no tagged/untagged/compliance fields). -/
theorem claim_C4_aggregate (rt : ResourceType) (env : ScanEnv)
    (regions : List String) :
    ((scanAllRegions rt env regions).total_resources =
      sumOverSuccesses (fun sr => sr.total_resources)
        (scanAllRegions rt env regions).region_results) ∧
    ((scanAllRegions rt env regions).total_untagged =
      sumOverSuccesses (fun sr => sr.untagged_resources.length)
        (scanAllRegions rt env regions).region_results) ∧
    ((scanAllRegions rt env regions).total_tagged =
      sumOverSuccesses (fun sr => sr.tagged_resources.length)
        (scanAllRegions rt env regions).region_results) ∧
    ((scanAllRegions rt env regions).successful_scans =
      ((scanAllRegions rt env regions).region_results.filter
        (fun r => r.success && r.scan_result.isSome)).length) ∧
    ((scanAllRegions rt env regions).failed_scans =
      ((scanAllRegions rt env regions).region_results.filter
        (fun r => !(r.success && r.scan_result.isSome))).length) ∧
    (scanAllRegions .EC2 envABC ["a", "b", "c"]).successful_scans = 2 ∧
    (scanAllRegions .EC2 envABC ["a", "b", "c"]).failed_scans = 1 ∧
    (scanAllRegions .EC2 envABC ["a", "b", "c"]).total_resources = 5 ∧
    assocGet (getRegionSummary (scanAllRegions .EC2 envABC ["a", "b", "c"]))
        "b" =
      some [("total", .num 0),
            ("error", .str (some "Failed to scan b: AccessDenied"))] := by
  have h := aggregateResults_spec (regions.map (scanRegion rt env))
  exact ⟨h.1, h.2.1, h.2.2.1, h.2.2.2.1, h.2.2.2.2,
    by decide, by decide, by decide, by decide⟩

/-- **C4** (counterexample): the per-region breakdown entry for the failed
region "b" has a numeric "total" key (value 0) next to its error field —
it is not true that it carries "no numeric total". -/
theorem claim_C4_counterexample :
    assocGet (regionSummaryEntry (scanRegion .EC2 envABC "b")) "error" =
      some (.str (some "Failed to scan b: AccessDenied")) ∧
    assocGet (regionSummaryEntry (scanRegion .EC2 envABC "b")) "total" =
      some (.num 0) ∧
    assocGet (getRegionSummary (scanAllRegions .EC2 envABC ["a", "b", "c"]))
        "b" =
      some (regionSummaryEntry (scanRegion .EC2 envABC "b")) := by
  refine ⟨by decide, by decide, by decide⟩

/-- **C1**: when rollback is enabled and a non-dry-run bulk call ends with
at least one failed operation, the rollback pass re-applies each completed
operation's captured original tag set (the call is issued whenever the
captured set is non-empty), every completed operation whose re-application
does not raise ends rolled-back, and the returned result reports
successful = 0 regardless of how many operations completed; concretely,
for [i-1, i-2, i-3] with exactly i-2 failing (dryRun=false,
failFast=false): successful=0, failed=1, rolled_back=2, statuses
[rolled-back, failed, rolled-back]. -/
theorem claim_C1_rollback (cfg : EngineConfig) (env : ApplyEnv)
    (resources : List AWSResource) (tags : Tags) (ff : Bool)
    (hrb : cfg.enable_rollback = true)
    (hfail : 0 < (bulkTagResources cfg env resources tags false ff).failed) :
    (bulkTagResources cfg env resources tags false ff).successful = 0 ∧
    (bulkTagResources cfg env resources tags false ff).operations =
      (processedOps cfg env resources tags ff).map (rolledBackOp env) ∧
    (∀ op ∈ processedOps cfg env resources tags ff,
      op.status = .completed →
      (op.original_tags ≠ [] →
        (op.resource_id, op.original_tags) ∈
          (bulkTagResourcesFull cfg env resources tags false ff).2) ∧
      ((∀ m, env op.resource_id op.original_tags ≠ .exn m) →
        (rolledBackOp env op).status = .rolled_back ∧
        rolledBackOp env op ∈
          (bulkTagResources cfg env resources tags false ff).operations)) ∧
    (bulkTagResources {} envMid [inst1, inst2, inst3] tagsDev
      false false).successful = 0 ∧
    (bulkTagResources {} envMid [inst1, inst2, inst3] tagsDev
      false false).failed = 1 ∧
    (bulkTagResources {} envMid [inst1, inst2, inst3] tagsDev
      false false).rolled_back = 2 ∧
    ((bulkTagResources {} envMid [inst1, inst2, inst3] tagsDev
      false false).operations.map (fun op => op.status)) =
      [.rolled_back, .failed, .rolled_back] := by
  have hf : 0 < countStatus .failed (processedOps cfg env resources tags ff) := by
    by_contra hz
    have hz' : countStatus .failed (processedOps cfg env resources tags ff) = 0 := by
      omega
    have hcase := bulkTagFull_norollback cfg env resources tags ff (Or.inr hz')
    rw [bulkTagResources, hcase] at hfail
    simp [hz'] at hfail
  have hcase := bulkTagFull_rollback cfg env resources tags ff hrb hf
  refine ⟨?_, ?_, ?_, by decide, by decide, by decide, by decide⟩
  · rw [bulkTagResources, hcase]
  · rw [bulkTagResources, hcase]
    exact rollbackAll_fst env _
  · intro op hmem hc
    constructor
    · intro hne
      rw [hcase]
      exact List.mem_append_right _
        (rollbackAll_calls_mem env _ op hmem hc hne)
    · intro hok
      refine ⟨rolledBackOp_of_completed env op hc hok, ?_⟩
      rw [bulkTagResources, hcase]
      show rolledBackOp env op ∈
        (rollbackAll env (processedOps cfg env resources tags ff)).1
      rw [rollbackAll_fst]
      exact List.mem_map_of_mem _ hmem

theorem claim_C1_witness :
    (bulkTagResources {} envMid [inst1, inst2, inst3] tagsDev
      false false).successful = 0 :=
  (claim_C1_rollback {} envMid [inst1, inst2, inst3] tagsDev false
    rfl (by decide)).1

/-- **C7** (amended): in a non-dry-run call an exception on one operation
is recorded on that operation alone (status failed, error = exception
message); with failFast=false every operation is attempted independently
(the processed list is the elementwise application of the environment);
with failFast=true the inner loop stops at the first *raising* operation
of a batch (operations after it stay pending), and once a processed batch
contains any failed operation the remaining batches are left unstarted —
but a failure where apply_tags returns False does not stop the current
batch, so processing does not stop at the first failure in that case. -/
theorem claim_C7_batch_failures (cfg : EngineConfig) (env : ApplyEnv)
    (resources : List AWSResource) (tags : Tags)
    (op : TagOperation) (m : String)
    (batch : List TagOperation) (bs : List (List TagOperation)) :
    (processedOps cfg env resources tags false =
      (resources.map (mkOperation tags)).map (applyOne env)) ∧
    (env op.resource_id op.tags_to_apply = .exn m →
      applyOne env op = { op with status := .failed, error := some m }) ∧
    (∃ k, k ≤ batch.length ∧
      (processBatch env true batch).1 =
        (batch.take k).map (applyOne env) ++ batch.drop k ∧
      (∀ j o, j < k → batch[j]? = some o → opRaised env o = true →
        j = k - 1) ∧
      (k < batch.length →
        0 < k ∧ ∃ o, batch[k - 1]? = some o ∧ opRaised env o = true)) ∧
    ((processBatch env true batch).1.any
        (fun o => o.status == OperationStatus.failed) = true →
      (processBatches env true (batch :: bs)).1 =
        (processBatch env true batch).1 ++ bs.flatten) ∧
    ((bulkTagResources { batch_size := 1, enable_rollback := false }
        envFalseFirst [resA, resB] tagsDev false true).operations.map
      (fun o => o.status)) = [.failed, .pending] := by
  refine ⟨?_, ?_, processBatch_ff env batch, ?_, by decide⟩
  · unfold processedOps
    rw [processBatches_noff, chunks_flatten]
  · intro h
    unfold applyOne
    rw [h]
  · intro h
    simp [processBatches, h]

/-- **C7** (counterexample): with failFast=true and both resources in one
batch, the first operation fails (apply_tags returns False) yet the second
is still attempted and completes — batch processing did not stop at the
first failure within the batch. -/
theorem claim_C7_counterexample :
    ((bulkTagResources { batch_size := 50, enable_rollback := false }
        envFalseFirst [resA, resB] tagsDev false true).operations.map
      (fun o => o.status)) = [.failed, .completed] ∧
    ¬ ((bulkTagResources { batch_size := 50, enable_rollback := false }
        envFalseFirst [resA, resB] tagsDev false true).operations.map
      (fun o => o.status)) = [.failed, .pending] :=
  ⟨by decide, by decide⟩

/-- **C9**: statuses follow the state machine: no returned operation is
in-progress; before rollback every operation is pending, completed or
failed; the rollback pass yields rolled-back only from completed; when
rollback fires the returned operations are exactly the rollback pass over
the processed list, and when it does not fire no operation is
rolled-back. -/
theorem claim_C9_state_machine (cfg : EngineConfig) (env : ApplyEnv)
    (resources : List AWSResource) (tags : Tags) (dr ff : Bool) :
    (∀ op ∈ (bulkTagResources cfg env resources tags dr ff).operations,
      op.status ≠ .in_progress) ∧
    (∀ op ∈ processedOps cfg env resources tags ff,
      op.status = .pending ∨ op.status = .completed ∨ op.status = .failed) ∧
    (∀ op ∈ processedOps cfg env resources tags ff,
      (rolledBackOp env op).status = .rolled_back → op.status = .completed) ∧
    (cfg.enable_rollback = true →
      0 < countStatus .failed (processedOps cfg env resources tags ff) →
      (bulkTagResources cfg env resources tags false ff).operations =
        (processedOps cfg env resources tags ff).map (rolledBackOp env)) ∧
    ((cfg.enable_rollback = false ∨
        countStatus .failed (processedOps cfg env resources tags ff) = 0) →
      ∀ op ∈ (bulkTagResources cfg env resources tags false ff).operations,
        op.status ≠ .rolled_back) := by
  have hproc : ∀ op ∈ processedOps cfg env resources tags ff,
      op.status = .pending ∨ op.status = .completed ∨ op.status = .failed := by
    intro op hmem
    unfold processedOps at hmem
    rcases processBatches_mem env ff _ op hmem with ⟨o, _, he⟩ | h'
    · rw [he]
      rcases applyOne_status env o with h | h
      · exact Or.inr (Or.inl h)
      · exact Or.inr (Or.inr h)
    · rw [chunks_flatten] at h'
      exact Or.inl (mkOperation_pending tags resources op h')
  have hrbonly : ∀ op ∈ processedOps cfg env resources tags ff,
      (rolledBackOp env op).status = .rolled_back → op.status = .completed := by
    intro op hmem h
    rcases hproc op hmem with hp | hc | hfd
    · rw [rolledBackOp_not_completed env op (by rw [hp]; decide)] at h
      rw [hp] at h
      exact absurd h (by decide)
    · exact hc
    · rw [rolledBackOp_not_completed env op (by rw [hfd]; decide)] at h
      rw [hfd] at h
      exact absurd h (by decide)
  refine ⟨?_, hproc, hrbonly, ?_, ?_⟩
  · intro op hmem
    cases dr with
    | true =>
      rw [bulkTagResources, bulkTagFull_dry] at hmem
      simp only [List.mem_map] at hmem
      obtain ⟨o, _, ho⟩ := hmem
      rw [← ho]
      simp
    | false =>
      by_cases hc : cfg.enable_rollback = true ∧
          0 < countStatus .failed (processedOps cfg env resources tags ff)
      · rw [bulkTagResources,
          bulkTagFull_rollback cfg env resources tags ff hc.1 hc.2,
          rollbackAll_fst] at hmem
        simp only [List.mem_map] at hmem
        obtain ⟨o, ho, hoe⟩ := hmem
        rcases rolledBackOp_status env o with hst | ⟨hst, _⟩
        · rw [← hoe, hst]
          rcases hproc o ho with h | h | h <;> rw [h] <;> decide
        · rw [← hoe, hst]
          decide
      · have hc' : cfg.enable_rollback = false ∨
            countStatus .failed (processedOps cfg env resources tags ff) = 0 := by
          rcases Bool.eq_false_or_eq_true cfg.enable_rollback with h | h
          · right
            by_contra hn
            exact hc ⟨h, by omega⟩
          · exact Or.inl h
        rw [bulkTagResources,
          bulkTagFull_norollback cfg env resources tags ff hc'] at hmem
        rcases hproc op hmem with h | h | h <;> rw [h] <;> decide
  · intro hrb hf
    rw [bulkTagResources, bulkTagFull_rollback cfg env resources tags ff hrb hf]
    exact rollbackAll_fst env _
  · intro hcond op hmem
    rw [bulkTagResources,
      bulkTagFull_norollback cfg env resources tags ff hcond] at hmem
    rcases hproc op hmem with h | h | h <;> rw [h] <;> decide

/-- **C10** (implicit): with failFast the processed operations form a
prefix: the returned result (rollback disabled, so successful is the
pre-rollback count) has total = len(resources); successful + failed equals
the processed-prefix length k, every operation beyond k stays pending —
so successful + failed can be strictly below total, as in the concrete
fail-fast run (1 + 1 = 2 < 3, last operation pending); with failFast=false
k = total and every operation is terminal. -/
theorem claim_C10_failfast_pending (cfg : EngineConfig) (env : ApplyEnv)
    (resources : List AWSResource) (tags : Tags) (ff : Bool)
    (henr : cfg.enable_rollback = false) :
    (∃ k, k ≤ resources.length ∧
      (bulkTagResources cfg env resources tags false ff).total_operations =
        resources.length ∧
      (bulkTagResources cfg env resources tags false ff).successful +
        (bulkTagResources cfg env resources tags false ff).failed = k ∧
      (bulkTagResources cfg env resources tags false ff).operations =
        ((resources.map (mkOperation tags)).take k).map (applyOne env) ++
          (resources.map (mkOperation tags)).drop k ∧
      (∀ op ∈ (resources.map (mkOperation tags)).drop k,
        op.status = .pending) ∧
      (ff = false → k = resources.length ∧
        ∀ op ∈ (bulkTagResources cfg env resources tags false ff).operations,
          op.status = .completed ∨ op.status = .failed)) ∧
    ((bulkTagResources { batch_size := 50, enable_rollback := false } envMid
        [inst1, inst2, inst3] tagsDev false true).successful +
      (bulkTagResources { batch_size := 50, enable_rollback := false } envMid
        [inst1, inst2, inst3] tagsDev false true).failed = 2 ∧
      (bulkTagResources { batch_size := 50, enable_rollback := false } envMid
        [inst1, inst2, inst3] tagsDev false true).total_operations = 3 ∧
      ((bulkTagResources { batch_size := 50, enable_rollback := false } envMid
        [inst1, inst2, inst3] tagsDev false true).operations.map
        (fun o => o.status)) = [.completed, .failed, .pending]) := by
  have hcase := bulkTagFull_norollback cfg env resources tags ff (Or.inl henr)
  obtain ⟨k, hk, heq, hff⟩ := processedOps_prefix cfg env resources tags ff
  have hpendSuffix : ∀ op ∈ (resources.map (mkOperation tags)).drop k,
      op.status = .pending := by
    intro op hmem
    exact mkOperation_pending tags resources op (List.drop_subset _ _ hmem)
  have htermPrefix : ∀ op ∈ ((resources.map (mkOperation tags)).take k).map
      (applyOne env), op.status = .completed ∨ op.status = .failed := by
    intro op hmem
    obtain ⟨o, _, ho⟩ := List.mem_map.mp hmem
    rw [← ho]
    exact applyOne_status env o
  have hcount : countStatus .completed (processedOps cfg env resources tags ff) +
      countStatus .failed (processedOps cfg env resources tags ff) = k := by
    rw [heq, countStatus_append, countStatus_append]
    have h1 := countStatus_terminal _ htermPrefix
    have h2 : countStatus .completed ((resources.map (mkOperation tags)).drop k) = 0 :=
      countStatus_zero _ _ (fun op hm => by rw [hpendSuffix op hm]; decide)
    have h3 : countStatus .failed ((resources.map (mkOperation tags)).drop k) = 0 :=
      countStatus_zero _ _ (fun op hm => by rw [hpendSuffix op hm]; decide)
    rw [h2, h3]
    have hlen : (((resources.map (mkOperation tags)).take k).map
        (applyOne env)).length = k := by
      rw [List.length_map, List.length_take, List.length_map]
      omega
    omega
  have hlenProc : (processedOps cfg env resources tags ff).length =
      resources.length := by
    rw [heq]
    simp only [List.length_append, List.length_map, List.length_take,
      List.length_drop]
    omega
  refine ⟨⟨k, hk, ?_, ?_, ?_, hpendSuffix, ?_⟩, by decide, by decide, by decide⟩
  · rw [bulkTagResources, hcase]
    exact hlenProc
  · rw [bulkTagResources, hcase]
    exact hcount
  · rw [bulkTagResources, hcase]
    exact heq
  · intro hffv
    refine ⟨hff hffv, ?_⟩
    intro op hmem
    rw [bulkTagResources, hcase, heq] at hmem
    rcases List.mem_append.mp hmem with h | h
    · exact htermPrefix op h
    · rw [hff hffv, List.drop_eq_nil_of_le (by rw [List.length_map])] at h
      exact absurd h (List.not_mem_nil op)

theorem claim_C10_witness :
    (bulkTagResources { batch_size := 50, enable_rollback := false } envMid
        [inst1, inst2, inst3] tagsDev false true).successful +
      (bulkTagResources { batch_size := 50, enable_rollback := false } envMid
        [inst1, inst2, inst3] tagsDev false true).failed = 2 :=
  (claim_C10_failfast_pending { batch_size := 50, enable_rollback := false }
    envMid [inst1, inst2, inst3] tagsDev true rfl).2.1

/-- **C8**: for the replace-rather-than-patch kinds (bucket, database)
apply_tags is read-merge-write: the written tag set is the merge of the
resource's existing tags with the requested tags, requested keys
overriding, so no pre-existing tag key is lost by a successful call. -/
theorem claim_C8_read_merge_write (getBucketTags : String → Tags)
    (bucket : String) (tags : Tags) (describeArn : String → Option String)
    (tagsOfArn : String → Tags) (dbId : String) (tags2 : Tags)
    (arn : String) (k v : String)
    (harn : describeArn dbId = some arn) :
    (s3ApplyTagsWritten getBucketTags bucket tags =
      mergeDicts (getBucketTags bucket) tags) ∧
    (dictGet (s3ApplyTagsWritten getBucketTags bucket tags) k =
      match dictGet tags k with
      | some w => some w
      | none => dictGet (getBucketTags bucket) k) ∧
    (dictGet (getBucketTags bucket) k = some v →
      (dictGet (s3ApplyTagsWritten getBucketTags bucket tags) k).isSome) ∧
    (rdsApplyTagsWritten describeArn tagsOfArn dbId tags2 =
      .ok (mergeDicts (tagsOfArn arn) tags2)) ∧
    (dictGet (mergeDicts (tagsOfArn arn) tags2) k =
      match dictGet tags2 k with
      | some w => some w
      | none => dictGet (tagsOfArn arn) k) ∧
    (dictGet (tagsOfArn arn) k = some v →
      (dictGet (mergeDicts (tagsOfArn arn) tags2) k).isSome) := by
  refine ⟨rfl, dictGet_mergeDicts _ _ _, ?_, ?_, dictGet_mergeDicts _ _ _, ?_⟩
  · intro h
    show (dictGet (mergeDicts (getBucketTags bucket) tags) k).isSome = true
    rw [dictGet_mergeDicts]
    cases hb : dictGet tags k <;> simp [h]
  · unfold rdsApplyTagsWritten
    rw [harn]
  · intro h
    rw [dictGet_mergeDicts]
    cases hb : dictGet tags2 k <;> simp [h]

theorem claim_C8_witness :
    rdsApplyTagsWritten (fun d => if d == "db-1" then some "arn-db-1" else none)
        (fun _ => [("Owner", "bob")]) "db-1" [("Environment", "dev")] =
      .ok (mergeDicts [("Owner", "bob")] [("Environment", "dev")]) :=
  (claim_C8_read_merge_write (fun _ => [("Owner", "alice")]) "bkt"
    [("Environment", "dev")]
    (fun d => if d == "db-1" then some "arn-db-1" else none)
    (fun _ => [("Owner", "bob")]) "db-1" [("Environment", "dev")]
    "arn-db-1" "Owner" "alice" (by decide)).2.2.2.1

end AwsTagSense
